import Mathlib

/-!
Verification of the SafeInCloud-to-1Password import script (`import.py`).

The script is embedded shallowly: every pure helper of the script becomes a
Lean function of the same name, byte strings become `List Nat` (each entry a
byte value), character strings become `String` or `List Char`, and the two
effectful steps (writing attachment files, invoking the `op` subprocess) are
modelled by returning the file path, respectively by passing an explicit
`runner` oracle for the subprocess.  Python library calls used by the script
(`base64.b64decode`, `re.sub`, `str.strip`, `str.split`) are modelled from
the CPython semantics; the models are restricted to ASCII inputs where the
Python originals are Unicode-aware, and the theorems carry ASCII hypotheses
where that restriction matters.
-/

namespace SIC

/-- ASCII whitespace as recognised by Python `str.split()` / `str.strip()`:
tab through carriage return (9-13), and file/group/record/unit separators
plus space (28-32). -/
def isPySpace (c : Char) : Bool :=
  (9 ≤ c.toNat && c.toNat ≤ 13) || (28 ≤ c.toNat && c.toNat ≤ 32)

/-- Python `str.strip()` on a character list (ASCII whitespace). -/
def pyStrip (l : List Char) : List Char :=
  ((l.dropWhile isPySpace).reverse.dropWhile isPySpace).reverse

/-- Python `str.strip()` on a `String`. -/
def pyStripS (s : String) : String :=
  ⟨pyStrip s.data⟩

/-- Test that `pat` is an initial segment of `l`
(the model of Python `bytes.startswith` / `str.startswith`). -/
def swB {α : Type} [DecidableEq α] : List α → List α → Bool
  | [], _ => true
  | _ :: _, [] => false
  | p :: ps, c :: cs => if p = c then swB ps cs else false

/-- Test that `pat` occurs as a contiguous substring of
`l` (the model of the Python `in` operator on strings). -/
def containsSL (pat : List Char) : List Char → Bool
  | [] => swB pat []
  | c :: cs => swB pat (c :: cs) || containsSL pat cs

/-- The value of one character in the standard base64 alphabet
(`A`-`Z`, `a`-`z`, `0`-`9`, `+`, `/`), and `none` off the alphabet. -/
def b64val (c : Char) : Option Nat :=
  if 65 ≤ c.toNat ∧ c.toNat ≤ 90 then some (c.toNat - 65)
  else if 97 ≤ c.toNat ∧ c.toNat ≤ 122 then some (c.toNat - 97 + 26)
  else if 48 ≤ c.toNat ∧ c.toNat ≤ 57 then some (c.toNat - 48 + 52)
  else if c = '+' then some 62
  else if c = '/' then some 63
  else none

/-- Decoder state of CPython `binascii.a2b_base64`: position inside the
current 4-character quantum, the pending bits, the number of padding
characters seen in the current quantum, whether padding has started, and the
output bytes in reverse order. -/
structure A2b where
  quad : Nat
  left : Nat
  pads : Nat
  padStart : Bool
  out : List Nat

/-- One data character of value `v` entering the decoder: resets the padding
counter and emits a byte once enough bits are available (the `switch` on the
quantum position in `binascii.c`). -/
def dataStep (st : A2b) (v : Nat) : A2b :=
  let st := { st with pads := 0 }
  match st.quad with
  | 0 => { st with quad := 1, left := v }
  | 1 => { st with quad := 2, left := v % 16, out := (st.left * 4 + v / 16) :: st.out }
  | 2 => { st with quad := 3, left := v % 4, out := (st.left * 16 + v / 4) :: st.out }
  | _ => { st with quad := 0, left := 0, out := (st.left * 64 + v) :: st.out }

/-- The main loop of CPython `binascii.a2b_base64` (3.11+ semantics).
In strict mode a non-alphabet character, a data character after padding, or
data following a complete padding group is an error; in lenient mode
non-alphabet characters are skipped.  A `=` inside a quantum with at least
two data characters counts toward the padding that closes the quantum; once
the quantum is closed decoding stops.  At end of input a partially filled
quantum is an error (`Incorrect padding`). -/
def a2bGo (strict : Bool) : List Char → A2b → Option (List Nat)
  | [], st => if st.quad = 0 then some st.out.reverse else none
  | c :: rest, st =>
    if c = '=' then
      let st1 := { st with padStart := true }
      if 2 ≤ st1.quad then
        if 4 ≤ st1.quad + (st1.pads + 1) then
          if strict && !rest.isEmpty then none else some st1.out.reverse
        else a2bGo strict rest { st1 with pads := st1.pads + 1 }
      else a2bGo strict rest st1
    else
      match b64val c with
      | none => if strict then none else a2bGo strict rest st
      | some v =>
        if strict && st.padStart then none
        else a2bGo strict rest (dataStep st v)

/-- CPython `binascii.a2b_base64`; in strict mode a leading `=` is refused
before the loop runs (`Leading padding not allowed`). -/
def a2b (strict : Bool) (s : List Char) : Option (List Nat) :=
  if strict && (s.head? = some '=') then none
  else a2bGo strict s ⟨0, 0, 0, false, []⟩

/-- The characters of the payload after `"".join(b64.split())`: every
whitespace character removed. -/
def compact_payload (b64 : String) : List Char :=
  b64.data.filter (fun c => !(isPySpace c))

/-- Function `decode_base64_payload` from the script: join away all whitespace, try a
strict decode (`base64.b64decode(s, validate=True)`), and on a base64 error
fall back to a lenient decode with three `=` appended
(`base64.b64decode(s + "===")`).  Non-ASCII input makes `b64decode` raise
`ValueError` before decoding, which the script does not catch. -/
def decode_base64_payload (b64 : String) : Except String (List Nat) :=
  let compact := compact_payload b64
  if compact.any (fun c => 128 ≤ c.toNat) then
    .error "ValueError: string argument should contain only ASCII characters"
  else
    match a2b true compact with
    | some data => .ok data
    | none =>
      match a2b false (compact ++ ['=', '=', '=']) with
      | some data => .ok data
      | none => .error "binascii.Error: invalid base64"

/-- Membership of a character in the regex class `[a-z0-9]` used by the
word boundaries of the `pin` pattern in `custom_field_type_for`. -/
def isLowerAlnum (c : Char) : Bool :=
  ('a' ≤ c && c ≤ 'z') || ('0' ≤ c && c ≤ '9')

/-- The word `pin` sits at the head of the list, with the following
character (when present) outside `[a-z0-9]`. -/
def pinAt : List Char → Bool
  | 'p' :: 'i' :: 'n' :: rest =>
    match rest with
    | [] => true
    | c :: _ => !(isLowerAlnum c)
  | _ => false

/-- Scan for a boundary character followed by a `pin` occurrence. -/
def pinBoundaryScan : List Char → Bool
  | [] => false
  | c :: rest => (!(isLowerAlnum c) && pinAt rest) || pinBoundaryScan rest

/-- The model of `re.search(r"(^|[^a-z0-9])pin([^a-z0-9]|$)", n)`: a `pin`
occurrence at the start of the string or after a non-alphanumeric
character, ending at the end of the string or before a non-alphanumeric
character. -/
def hasPinWord (n : List Char) : Bool :=
  pinAt n || pinBoundaryScan n

/-- The normalised form of a field name used by the classifier:
`(name or "").strip().lower()`.  (Python `str.lower` is Unicode-aware;
`Char.toLower` covers its ASCII fragment.) -/
def normName (name : String) : List Char :=
  (pyStrip name.data).map Char.toLower

/-- Function `custom_field_type_for` from the script: strip and lowercase the field
name, then test `email`, then `password` / word-boundary `pin` / `secret`,
then `website`, in that order. -/
def custom_field_type_for (name : String) : String :=
  let n := normName name
  if containsSL "email".data n then "email"
  else if containsSL "password".data n || hasPinWord n || containsSL "secret".data n then
    "password"
  else if containsSL "website".data n then "url"
  else "text"

/-- Function `is_blank` from the script: `None` or whitespace-only. -/
def is_blank (s : Option String) : Bool :=
  match s with
  | none => true
  | some t => pyStripS t = ""

/-- Python single-character `str.replace`: every occurrence of the
character `a` becomes the segment `r`. -/
def replaceCh (a : Char) (r : List Char) : List Char → List Char
  | [] => []
  | c :: rest => (if c = a then r else [c]) ++ replaceCh a r rest

/-- Function `escape_assignment_name` from the script on character lists:
`s.replace("\\", "\\\\").replace(".", "\\.").replace("=", "\\=")`,
backslash first so the escapes themselves are not re-escaped. -/
def escapeL (l : List Char) : List Char :=
  replaceCh '=' ['\\', '=']
    (replaceCh '.' ['\\', '.']
      (replaceCh '\\' ['\\', '\\'] l))

/-- Function `escape_assignment_name` from the script. -/
def escape_assignment_name (s : String) : String :=
  ⟨escapeL s.data⟩

/-- The escaped form of one character: the three sequential replacements of
`escapeL` put a backslash in front of a backslash, a period or an equals
sign and leave every other character alone. -/
def encChar (c : Char) : List Char :=
  if c = '\\' ∨ c = '.' ∨ c = '=' then ['\\', c] else [c]

/-- Modelled from the spec: the script itself defines no unescaping; the
spec describes recovery by "the inverse rule", which removes the backslash
introduced before each escaped character. -/
def unescape : List Char → List Char
  | [] => []
  | [c] => [c]
  | c :: d :: rest =>
    if c = '\\' then d :: unescape rest else c :: unescape (d :: rest)

/-- The ASCII fragment of the regex class `[\w.\-]` kept by
`safe_filename`: word characters, period, hyphen.  (Python `\w` also
matches non-ASCII word characters; all statements below stay within
ASCII.) -/
def allowedFileChar (c : Char) : Bool :=
  ('A' ≤ c && c ≤ 'Z') || ('a' ≤ c && c ≤ 'z') || ('0' ≤ c && c ≤ '9') ||
    c = '_' || c = '.' || c = '-'

/-- The model of `re.sub(r"[^\w.\-]+", "_", s)`: each maximal nonempty run
of disallowed characters collapses to a single underscore.  The flag
records whether the previous character was part of such a run. -/
def pySubUnderscore : List Char → Bool → List Char
  | [], _ => []
  | c :: rest, inRun =>
    if allowedFileChar c then c :: pySubUnderscore rest false
    else if inRun then pySubUnderscore rest true
    else '_' :: pySubUnderscore rest true

/-- Each maximal run of disallowed characters becomes one underscore,
phrased with an explicit jump over the whole run; used to characterise
`pySubUnderscore` independently of its scanning flag. -/
def collapseRuns (l : List Char) : List Char :=
  match l with
  | [] => []
  | c :: rest =>
    if allowedFileChar c then c :: collapseRuns rest
    else '_' :: collapseRuns (rest.dropWhile (fun d => !(allowedFileChar d)))
termination_by l.length
decreasing_by
  · simp only [List.length_cons]
    omega
  · exact Nat.lt_succ_of_le (List.Sublist.length_le (List.dropWhile_sublist _))

/-- Function `safe_filename` from the script: strip, substitute disallowed runs,
truncate to `maxLen`, and fall back to `attachment` when nothing is
left. -/
def safe_filename (s : String) (maxLen : Nat := 80) : String :=
  let t := (pySubUnderscore (pyStrip s.data) false).take maxLen
  if t.isEmpty then "attachment" else ⟨t⟩

/-- Function `guess_extension` from the script: match the PNG, JPEG, GIF87a/GIF89a
and `%PDF-` magic prefixes in order, defaulting to `.png`. -/
def guess_extension (data : List Nat) : String :=
  if swB [137, 80, 78, 71, 13, 10, 26, 10] data then ".png"
  else if swB [255, 216, 255] data then ".jpg"
  else if swB [71, 73, 70, 56, 55, 97] data || swB [71, 73, 70, 56, 57, 97] data then ".gif"
  else if swB [37, 80, 68, 70, 45] data then ".pdf"
  else ".png"

/-- Function `process_attachment` from the script.  The base64 text of the element
is stripped; blank content yields no assignment (`.ok none`).  A decode
failure propagates.  Otherwise the file name is the sanitised explicit
`filename` when one is given (Python truthiness: `None` and the empty
string both fall through to generation), else `{pre}_{index}` sanitised
plus an optionally sniffed extension; the decoded bytes are written to
`attachments_dir/name` and the returned assignment references that path.
(The Python parameter is named `prefix`; it is called `pre` here.) -/
def process_attachment (attachments_dir : String) (text : Option String)
    (filename : Option String := none) (auto_detect_ext : Bool := false)
    (pre : String := "") (index : Nat := 1) : Except String (Option String) :=
  let b64 := pyStripS (text.getD "")
  if b64 = "" then .ok none
  else
    match decode_base64_payload b64 with
    | .error e => .error e
    | .ok data =>
      let generated : String :=
        safe_filename (pre ++ "_" ++ toString index) ++
          (if auto_detect_ext then guess_extension data else "")
      let safe_name : String :=
        match filename with
        | some fn => if fn = "" then generated else safe_filename fn
        | none => generated
      let out_path := attachments_dir ++ "/" ++ safe_name
      .ok (some (escape_assignment_name safe_name ++ "[file]=" ++ out_path))

/-- Exit status and captured output of one external `op` invocation. -/
structure ProcResult where
  returncode : Int
  stdout : String
  stderr : String

/-- Observable outcome of `run_op_create_item`: the printed dry-run line, a
success carrying the captured standard output, or a raised error message. -/
inductive OpOutcome where
  | dryRunPrint (line : String)
  | success (stdout : String)
  | failure (msg : String)
deriving DecidableEq

/-- The command list built by `run_op_create_item`: fixed `op item create`
with category and title, then vault, url and tags only when truthy (tags
joined by commas), then the assignments. -/
def build_op_cmd (vault : Option String) (category title : String) (url : Option String)
    (tags assignments : List String) : List String :=
  ["op", "item", "create", "--category", category, "--title", title]
    ++ (match vault with
        | some v => if v = "" then [] else ["--vault", v]
        | none => [])
    ++ (match url with
        | some u => if u = "" then [] else ["--url", u]
        | none => [])
    ++ (if tags.isEmpty then [] else ["--tags", String.intercalate "," tags])
    ++ assignments

/-- Function `run_op_create_item` from the script.  In dry-run mode the command is
printed and the subprocess is never started; otherwise the subprocess
result decides between the error message (embedding the captured output
streams) and success. -/
def run_op_create_item (vault : Option String) (category title : String) (url : Option String)
    (tags assignments : List String) (dry_run : Bool)
    (runner : List String → ProcResult) : OpOutcome :=
  let cmd := build_op_cmd vault category title url tags assignments
  if dry_run then
    .dryRunPrint ("DRY RUN: " ++ String.intercalate " " cmd)
  else
    let res := runner cmd
    if res.returncode ≠ 0 then
      .failure ("op item create failed for \x27" ++ title ++ "\x27.\nSTDOUT:\n" ++
        res.stdout ++ "\nSTDERR:\n" ++ res.stderr)
    else .success res.stdout

/-- One `<field>` element: `name` and `type` attributes and text content,
each possibly absent. -/
structure XField where
  name : Option String
  ftype : Option String
  text : Option String
deriving DecidableEq

/-- One `<file>` element: `name` attribute and base64 text content. -/
structure XFile where
  name : Option String
  text : Option String
deriving DecidableEq

/-- One `<card>` element as the script reads it: `title` and `template`
attributes, the field list in document order, the optional `<notes>` and
`<label_id>` children (each `some (text)` when the child exists, its text
again optional), and the `<image>` and `<file>` children. -/
structure XCard where
  title : Option String
  template : Option String
  fields : List XField
  notes : Option (Option String)
  label_id : Option (Option String)
  images : List (Option String)
  files : List XFile
deriving DecidableEq

/-- Everything the script hands to `run_op_create_item` for one card. -/
structure Invocation where
  title : String
  url : Option String
  tags : List String
  assignments : List String
deriving DecidableEq

/-- Python truthiness of an optional string: present and nonempty. -/
def truthyOpt (o : Option String) : Bool :=
  match o with
  | some s => s ≠ ""
  | none => false

/-- Model of `card.find("./field[@type=ty]")` over index-decorated fields: the first
field whose `type` attribute equals `ty`, with its position (positions
stand in for element identity under `card.remove`). -/
def findTypedIdx (ty : String) (l : List (Nat × XField)) : Option (Nat × XField) :=
  l.find? (fun p => p.2.ftype == some ty)

/-- The custom assignment built from one remaining field: skipped when the
stripped name is empty or the value is blank, else
`S:name` escaped, the classified type, and the raw value. -/
def custom_assignment_for (f : XField) : Option String :=
  let name := pyStripS (f.name.getD "")
  let value := f.text.getD ""
  if name = "" || is_blank (some value) then none
  else
    some (escape_assignment_name ("S:" ++ name) ++ "[" ++
      custom_field_type_for name ++ "]=" ++ value)

/-- The stub assignment the template branch builds from one remaining
field: `S:name` escaped, type `text`, value `-`, skipped only for a blank
name. -/
def template_stub_for (f : XField) : Option String :=
  let name := pyStripS (f.name.getD "")
  if name = "" then none
  else some (escape_assignment_name ("S:" ++ name) ++ "[text]=-")

/-- The image loop of `main`: each `<image>` text runs through
`process_attachment` with extension sniffing and the card title as name
stem, indices counting from 1. -/
def processImages (dir title : String) : List (Option String) → Nat → Except String (List String)
  | [], _ => .ok []
  | t :: rest, idx =>
    match process_attachment dir t none true title idx with
    | .error e => .error e
    | .ok a =>
      match processImages dir title rest (idx + 1) with
      | .error e => .error e
      | .ok tailA => .ok ((match a with | some s => [s] | none => []) ++ tailA)

/-- The file loop of `main`: each `<file>` element uses its stripped `name`
attribute, or `file_{idx}` when that is empty, as the explicit filename. -/
def processFiles (dir : String) : List XFile → Nat → Except String (List String)
  | [], _ => .ok []
  | fe :: rest, idx =>
    let fname0 := pyStripS (fe.name.getD "")
    let fname := if fname0 = "" then "file_" ++ toString idx else fname0
    match process_attachment dir fe.text (some fname) false "" 1 with
    | .error e => .error e
    | .ok a =>
      match processFiles dir rest (idx + 1) with
      | .error e => .error e
      | .ok tailA => .ok ((match a with | some s => [s] | none => []) ++ tailA)

/-- Title of the card as the script computes it:
`card.attrib.get("title", "").strip() or "Untitled"`. -/
def card_title (card : XCard) : String :=
  let t0 := pyStripS (card.title.getD "")
  if t0 = "" then "Untitled" else t0

/-- The `username=` assignment: emitted when the first login-typed field
exists and its text is truthy (`if login is not None and login.text`). -/
def login_assignments (card : XCard) : List String :=
  match findTypedIdx "login" card.fields.enum with
  | some (_, f) => if truthyOpt f.text then ["username=" ++ f.text.getD ""] else []
  | none => []

/-- The `password=` assignment, gated exactly like the login one. -/
def password_assignments (card : XCard) : List String :=
  match findTypedIdx "password" card.fields.enum with
  | some (_, f) => if truthyOpt f.text then ["password=" ++ f.text.getD ""] else []
  | none => []

/-- The `notesPlain=` assignment: emitted when the `<notes>` child exists
and its text is truthy. -/
def notes_assignments (card : XCard) : List String :=
  match card.notes with
  | some nt => if truthyOpt nt then ["notesPlain=" ++ nt.getD ""] else []
  | none => []

/-- The stripped website text, `None` when the website field is absent or
its text is falsy. -/
def url_value (card : XCard) : Option String :=
  match findTypedIdx "website" card.fields.enum with
  | some (_, f) => if truthyOpt f.text then some (pyStripS (f.text.getD "")) else none
  | none => none

/-- Positions of the field elements removed by `card.remove`: the login and
password fields only when their text was truthy, the website field whenever
present. -/
def removedIdxs (card : XCard) : List Nat :=
  (match findTypedIdx "login" card.fields.enum with
   | some (i, f) => if truthyOpt f.text then [i] else []
   | none => [])
  ++ (match findTypedIdx "password" card.fields.enum with
      | some (i, f) => if truthyOpt f.text then [i] else []
      | none => [])
  ++ (match findTypedIdx "website" card.fields.enum with
      | some (i, _) => [i]
      | none => [])

/-- The fields still in the card when `card.findall("./field")` runs again,
in document order. -/
def remaining_fields (card : XCard) : List (Nat × XField) :=
  card.fields.enum.filter (fun p => !((removedIdxs card).contains p.1))

/-- The custom-field loop over the remaining fields. -/
def custom_assignments (card : XCard) : List String :=
  (remaining_fields card).filterMap (fun p => custom_assignment_for p.2)

/-- The template-stub loop; its guard repeats the `template == "true"` test
of the skip at the top of the card loop, so it never fires for a card that
reaches it. -/
def template_assignments (card : XCard) : List String :=
  if card.template = some "true" then
    (remaining_fields card).filterMap (fun p => template_stub_for p.2)
  else []

/-- Tags of the card: `Templates` from the (dead) template branch, then the
group name when group tagging is on, the `<label_id>` text is a known label
id, and the group name is not blank. -/
def card_tags (tag_groups : Bool) (groups : String → Option String) (card : XCard) :
    List String :=
  (if card.template = some "true" then ["Templates"] else [])
    ++ (if tag_groups then
          match card.label_id with
          | some (some gid) =>
            match groups gid with
            | some gname0 =>
              let gname := pyStripS gname0
              if gname = "" then [] else [gname]
            | none => []
          | _ => []
        else [])

/-- The non-attachment assignments of the card, in the order the script
appends them: username, password, notesPlain, custom fields, template
stubs. -/
def base_assignments (card : XCard) : List String :=
  login_assignments card ++ password_assignments card ++ notes_assignments card
    ++ custom_assignments card ++ template_assignments card

/-- The per-card body of the loop in `main` (after deleted cards were
dropped from the tree).  A template card is skipped and produces no
invocation (`.ok none`).  Otherwise the invocation collects the title, the
url, the tags, and the base assignments followed by the image and file
attachment assignments.  A decode failure aborts the card with `.error`, as
the uncaught exception does. -/
def processCard (tag_groups : Bool) (groups : String → Option String)
    (attachments_dir : String) (card : XCard) : Except String (Option Invocation) :=
  if card.template = some "true" then .ok none
  else
    match processImages attachments_dir (card_title card) card.images 1 with
    | .error e => .error e
    | .ok imgAssigns =>
      match processFiles attachments_dir card.files 1 with
      | .error e => .error e
      | .ok fileAssigns =>
        .ok (some { title := card_title card, url := url_value card,
                    tags := card_tags tag_groups groups card,
                    assignments := base_assignments card ++ imgAssigns ++ fileAssigns })

/-- Folding a run of data characters through the decoder states, as the
`a2bGo` loop does on alphabet characters. -/
def dataFold (s : List Char) (st : A2b) : A2b :=
  s.foldl (fun st c => dataStep st ((b64val c).getD 0)) st

/-- The characters the lenient decoder actually consumes: alphabet
characters and padding. -/
def keepB64 (c : Char) : Bool :=
  (b64val c).isSome || c = '='

/-- A template-flagged card carrying a real named field with a value. -/
def templateCardExample : XCard :=
  { title := some "Tmpl", template := some "true",
    fields := [{ name := some "X", ftype := none, text := some "Y" }],
    notes := none, label_id := none, images := [], files := [] }

/-- A card whose login text, notes text and one custom field value are all
a single space: whitespace-only but nonempty. -/
def wsCardExample : XCard :=
  { title := some "W", template := none,
    fields := [{ name := some "Login", ftype := some "login", text := some " " },
               { name := some "Custom", ftype := none, text := some " " }],
    notes := some (some " "), label_id := none, images := [], files := [] }

theorem swB_iff {α : Type} [DecidableEq α] (pat l : List α) :
    swB pat l = true ↔ ∃ r, l = pat ++ r := by
  induction pat generalizing l with
  | nil => simp [swB]
  | cons p ps ih =>
    cases l with
    | nil => simp [swB]
    | cons c cs =>
      by_cases h : p = c
      · subst h
        simp [swB, ih]
      · constructor
        · intro hh
          simp [swB, h] at hh
        · rintro ⟨r, hr⟩
          rw [List.cons_append] at hr
          injection hr with h1 h2
          exact absurd h1.symm h

theorem containsSL_iff (pat l : List Char) :
    containsSL pat l = true ↔ ∃ l1 r, l = l1 ++ pat ++ r := by
  induction l with
  | nil =>
    simp only [containsSL]
    rw [swB_iff]
    constructor
    · rintro ⟨r, hr⟩
      exact ⟨[], r, by simpa using hr⟩
    · rintro ⟨l1, r, hr⟩
      rcases List.append_eq_nil.mp hr.symm with ⟨h3, rfl⟩
      rcases List.append_eq_nil.mp h3 with ⟨rfl, rfl⟩
      exact ⟨[], rfl⟩
  | cons c cs ih =>
    simp only [containsSL]
    rw [Bool.or_eq_true, swB_iff, ih]
    constructor
    · rintro (⟨r, hr⟩ | ⟨l1, r, hr⟩)
      · exact ⟨[], r, by simpa using hr⟩
      · exact ⟨c :: l1, r, by simp [hr]⟩
    · rintro ⟨l1, r, hr⟩
      cases l1 with
      | nil => exact Or.inl ⟨r, by simpa using hr⟩
      | cons d l1 =>
        right
        refine ⟨l1, r, ?_⟩
        simp only [List.cons_append, List.cons.injEq] at hr
        exact hr.2

/-- C8: every byte buffer gets an extension with no error case; the four
magic prefixes map to their fixed extensions, and every other buffer,
including the empty one, falls back to `.png`. -/
theorem C8_guess_extension_classifies (data : List Nat) :
    (guess_extension data = ".png" ∨ guess_extension data = ".jpg" ∨
      guess_extension data = ".gif" ∨ guess_extension data = ".pdf") ∧
    ((∃ r, data = [137, 80, 78, 71, 13, 10, 26, 10] ++ r) → guess_extension data = ".png") ∧
    ((∃ r, data = [255, 216, 255] ++ r) → guess_extension data = ".jpg") ∧
    (((∃ r, data = [71, 73, 70, 56, 55, 97] ++ r) ∨
      (∃ r, data = [71, 73, 70, 56, 57, 97] ++ r)) → guess_extension data = ".gif") ∧
    ((∃ r, data = [37, 80, 68, 70, 45] ++ r) → guess_extension data = ".pdf") ∧
    ((¬∃ r, data = [137, 80, 78, 71, 13, 10, 26, 10] ++ r) →
     (¬∃ r, data = [255, 216, 255] ++ r) →
     (¬∃ r, data = [71, 73, 70, 56, 55, 97] ++ r) →
     (¬∃ r, data = [71, 73, 70, 56, 57, 97] ++ r) →
     (¬∃ r, data = [37, 80, 68, 70, 45] ++ r) →
      guess_extension data = ".png") ∧
    guess_extension [] = ".png" := by
  have notSw : ∀ pat : List Nat, (¬∃ r, data = pat ++ r) → swB pat data = false := by
    intro pat h
    cases hsw : swB pat data with
    | false => rfl
    | true => exact absurd ((swB_iff pat data).mp hsw) h
  refine ⟨?_, ?_, ?_, ?_, ?_, ?_, rfl⟩
  · unfold guess_extension
    split_ifs <;> simp
  · rintro ⟨r, rfl⟩
    rfl
  · rintro ⟨r, rfl⟩
    rfl
  · rintro (⟨r, rfl⟩ | ⟨r, rfl⟩) <;> rfl
  · rintro ⟨r, rfl⟩
    rfl
  · intro h1 h2 h3 h4 h5
    simp [guess_extension, notSw _ h1, notSw _ h2, notSw _ h3, notSw _ h4, notSw _ h5]

theorem C8_witness :
    (∃ r, [255, 216, 255, 0] = [255, 216, 255] ++ r) ∧
    guess_extension [255, 216, 255, 0] = ".jpg" :=
  ⟨⟨[0], rfl⟩, (C8_guess_extension_classifies [255, 216, 255, 0]).2.2.1 ⟨[0], rfl⟩⟩

theorem replaceCh_append (a : Char) (r l1 l2 : List Char) :
    replaceCh a r (l1 ++ l2) = replaceCh a r l1 ++ replaceCh a r l2 := by
  induction l1 with
  | nil => rfl
  | cons c t ih => simp [replaceCh, ih]

theorem escapeL_cons (c : Char) (l : List Char) :
    escapeL (c :: l) = encChar c ++ escapeL l := by
  by_cases hb : c = '\\'
  · subst hb
    simp [escapeL, replaceCh, replaceCh_append, encChar]
  · by_cases hd : c = '.'
    · subst hd
      simp [escapeL, replaceCh, replaceCh_append, encChar]
    · by_cases he : c = '='
      · subst he
        simp [escapeL, replaceCh, replaceCh_append, encChar]
      · simp [escapeL, replaceCh, replaceCh_append, encChar, hb, hd, he]

theorem encChar_ne_nil (c : Char) : encChar c ≠ [] := by
  unfold encChar
  split <;> simp

theorem escapeL_eq_nil_iff (l : List Char) : escapeL l = [] ↔ l = [] := by
  cases l with
  | nil => simp [escapeL, replaceCh]
  | cons c t =>
    rw [escapeL_cons]
    simp [List.append_eq_nil, encChar_ne_nil]

theorem unescape_cons_of_ne (c d : Char) (rest : List Char) (h : c ≠ '\\') :
    unescape (c :: d :: rest) = c :: unescape (d :: rest) := by
  simp [unescape, h]

theorem unescape_escapeL (l : List Char) : unescape (escapeL l) = l := by
  induction l with
  | nil => rfl
  | cons c t ih =>
    rw [escapeL_cons]
    by_cases hs : c = '\\' ∨ c = '.' ∨ c = '='
    · rw [encChar, if_pos hs]
      show unescape ('\\' :: c :: escapeL t) = c :: t
      simp [unescape, ih]
    · rw [encChar, if_neg hs]
      push_neg at hs
      cases ht : escapeL t with
      | nil =>
        have h0 : t = [] := (escapeL_eq_nil_iff t).mp ht
        subst h0
        simp [unescape]
      | cons d rest =>
        rw [List.singleton_append, unescape_cons_of_ne c d rest hs.1, ← ht, ih]

/-- C5: on names over backslash, period, equals sign and alphanumerics,
unescaping with the inverse rule recovers the original name from the
escaped form. -/
theorem C5_unescape_escape_roundtrip (s : String)
    (_halpha : ∀ c ∈ s.data, c = '\\' ∨ c = '.' ∨ c = '=' ∨ c.isAlphanum) :
    unescape (escape_assignment_name s).data = s.data :=
  unescape_escapeL s.data

theorem C5_witness :
    (∀ c ∈ ("a.b=c\\d" : String).data, c = '\\' ∨ c = '.' ∨ c = '=' ∨ c.isAlphanum) ∧
    unescape (escape_assignment_name "a.b=c\\d").data = ("a.b=c\\d" : String).data :=
  ⟨by decide, C5_unescape_escape_roundtrip "a.b=c\\d" (by decide)⟩

/-- C9: assignment-name escaping never collapses two distinct names; it is
injective on all strings, not just on the restricted alphabet. -/
theorem C9_escape_injective (s t : String)
    (h : escape_assignment_name s = escape_assignment_name t) : s = t := by
  have hd : escapeL s.data = escapeL t.data := congrArg String.data h
  have hdata : s.data = t.data := by
    rw [← unescape_escapeL s.data, ← unescape_escapeL t.data, hd]
  exact congrArg String.mk hdata

theorem C9_witness :
    escape_assignment_name "a" = escape_assignment_name "a" ∧ ("a" : String) = "a" :=
  ⟨rfl, C9_escape_injective "a" "a" rfl⟩

/-- C2: the classifier always answers one of the four types, and follows
first-match-wins precedence on the normalised (trimmed, lowercased) name:
an `email` occurrence wins outright; otherwise `password`, a word-boundary
`pin` or `secret` gives `password`; otherwise `website` gives `url`;
otherwise `text`. -/
theorem C2_classifier_precedence (name : String) :
    (custom_field_type_for name = "email" ∨ custom_field_type_for name = "password" ∨
      custom_field_type_for name = "url" ∨ custom_field_type_for name = "text") ∧
    ((∃ l r, normName name = l ++ "email".data ++ r) →
      custom_field_type_for name = "email") ∧
    ((¬∃ l r, normName name = l ++ "email".data ++ r) →
      ((∃ l r, normName name = l ++ "password".data ++ r) ∨
        hasPinWord (normName name) = true ∨
        (∃ l r, normName name = l ++ "secret".data ++ r)) →
      custom_field_type_for name = "password") ∧
    ((¬∃ l r, normName name = l ++ "email".data ++ r) →
      (¬∃ l r, normName name = l ++ "password".data ++ r) →
      hasPinWord (normName name) = false →
      (¬∃ l r, normName name = l ++ "secret".data ++ r) →
      (∃ l r, normName name = l ++ "website".data ++ r) →
      custom_field_type_for name = "url") ∧
    ((¬∃ l r, normName name = l ++ "email".data ++ r) →
      (¬∃ l r, normName name = l ++ "password".data ++ r) →
      hasPinWord (normName name) = false →
      (¬∃ l r, normName name = l ++ "secret".data ++ r) →
      (¬∃ l r, normName name = l ++ "website".data ++ r) →
      custom_field_type_for name = "text") := by
  have hcs : ∀ pat : List Char, (¬∃ l r, normName name = l ++ pat ++ r) →
      containsSL pat (normName name) = false := by
    intro pat h
    cases hc : containsSL pat (normName name) with
    | false => rfl
    | true => exact absurd ((containsSL_iff pat (normName name)).mp hc) h
  refine ⟨?_, ?_, ?_, ?_, ?_⟩
  · unfold custom_field_type_for
    dsimp only
    split_ifs <;> simp
  · intro he
    have h1 : containsSL "email".data (normName name) = true :=
      (containsSL_iff _ _).mpr he
    simp [custom_field_type_for, h1]
  · intro hne hor
    have h1 := hcs _ hne
    rcases hor with hp | hpin | hsec
    · have h2 : containsSL "password".data (normName name) = true :=
        (containsSL_iff _ _).mpr hp
      simp [custom_field_type_for, h1, h2]
    · simp [custom_field_type_for, h1, hpin]
    · have h2 : containsSL "secret".data (normName name) = true :=
        (containsSL_iff _ _).mpr hsec
      simp [custom_field_type_for, h1, h2]
  · intro hne hnp hpin hns hw
    have h1 := hcs _ hne
    have h2 := hcs _ hnp
    have h4 := hcs _ hns
    have h5 : containsSL "website".data (normName name) = true :=
      (containsSL_iff _ _).mpr hw
    simp [custom_field_type_for, h1, h2, hpin, h4, h5]
  · intro hne hnp hpin hns hnw
    have h1 := hcs _ hne
    have h2 := hcs _ hnp
    have h4 := hcs _ hns
    have h5 := hcs _ hnw
    simp [custom_field_type_for, h1, h2, hpin, h4, h5]

theorem C2_witness :
    (∃ l r, normName "Email Password" = l ++ "email".data ++ r) ∧
    custom_field_type_for "Email Password" = "email" :=
  ⟨⟨[], " password".data, by decide⟩,
   (C2_classifier_precedence "Email Password").2.1 ⟨[], " password".data, by decide⟩⟩

/-- C7: the built invocation always carries the category and title flags,
adds vault, url and tags segments only when those inputs are truthy (tags
joined by commas into one value), and ends with the assignments in their
original order; dry-run only prints (the subprocess oracle is irrelevant);
a non-zero exit status yields the error outcome embedding the captured
standard output and standard error. -/
theorem C7_run_op_create_item_contract (vault : Option String) (category title : String)
    (url : Option String) (tags assignments : List String)
    (runner runner2 : List String → ProcResult) :
    (∃ vaultPart urlPart tagsPart,
      build_op_cmd vault category title url tags assignments =
        ["op", "item", "create", "--category", category, "--title", title]
          ++ vaultPart ++ urlPart ++ tagsPart ++ assignments ∧
      (∀ v, vault = some v → v ≠ "" → vaultPart = ["--vault", v]) ∧
      ((vault = none ∨ vault = some "") → vaultPart = []) ∧
      (∀ u, url = some u → u ≠ "" → urlPart = ["--url", u]) ∧
      ((url = none ∨ url = some "") → urlPart = []) ∧
      (tags ≠ [] → tagsPart = ["--tags", String.intercalate "," tags]) ∧
      (tags = [] → tagsPart = [])) ∧
    run_op_create_item vault category title url tags assignments true runner =
      .dryRunPrint ("DRY RUN: " ++
        String.intercalate " " (build_op_cmd vault category title url tags assignments)) ∧
    run_op_create_item vault category title url tags assignments true runner =
      run_op_create_item vault category title url tags assignments true runner2 ∧
    (∀ res : ProcResult,
      runner (build_op_cmd vault category title url tags assignments) = res →
      res.returncode ≠ 0 →
      run_op_create_item vault category title url tags assignments false runner =
        .failure ("op item create failed for \x27" ++ title ++ "\x27.\nSTDOUT:\n" ++
          res.stdout ++ "\nSTDERR:\n" ++ res.stderr)) ∧
    (∀ res : ProcResult,
      runner (build_op_cmd vault category title url tags assignments) = res →
      res.returncode = 0 →
      run_op_create_item vault category title url tags assignments false runner =
        .success res.stdout) := by
  refine ⟨?_, rfl, rfl, ?_, ?_⟩
  · refine ⟨(match vault with
             | some v => if v = "" then [] else ["--vault", v]
             | none => []),
            (match url with
             | some u => if u = "" then [] else ["--url", u]
             | none => []),
            (if tags.isEmpty then [] else ["--tags", String.intercalate "," tags]),
            rfl, ?_, ?_, ?_, ?_, ?_, ?_⟩
    · intro v hv hne
      subst hv
      simp [hne]
    · rintro (hv | hv) <;> subst hv <;> simp
    · intro u hu hne
      subst hu
      simp [hne]
    · rintro (hu | hu) <;> subst hu <;> simp
    · intro ht
      simp [List.isEmpty_iff, ht]
    · intro ht
      subst ht
      simp
  · intro res hres hrc
    simp [run_op_create_item, hres, hrc]
  · intro res hres hrc
    simp [run_op_create_item, hres, hrc]

theorem C7_witness :
    ((fun _ : List String => ProcResult.mk 1 "o" "e")
        (build_op_cmd none "login" "T" none [] ["a=b"])).returncode ≠ 0 ∧
    run_op_create_item none "login" "T" none [] ["a=b"] false
        (fun _ => ProcResult.mk 1 "o" "e") =
      .failure ("op item create failed for \x27T\x27.\nSTDOUT:\no\nSTDERR:\ne") :=
  ⟨by decide,
   (C7_run_op_create_item_contract none "login" "T" none [] ["a=b"]
      (fun _ => ProcResult.mk 1 "o" "e") (fun _ => ProcResult.mk 1 "o" "e")).2.2.2.1
     (ProcResult.mk 1 "o" "e") rfl (by decide)⟩

/-- C1 counterexample: a card flagged `template="true"` with a real named,
valued field is dropped by the card loop and produces no invocation at all,
against the claim that it yields an item tagged `Templates` with stubbed
fields. -/
theorem C1_counterexample :
    templateCardExample.template = some "true" ∧
    processCard false (fun _ => none) "att" templateCardExample = .ok none ∧
    ¬∃ inv : Invocation,
      processCard false (fun _ => none) "att" templateCardExample = .ok (some inv) := by
  refine ⟨rfl, rfl, ?_⟩
  rintro ⟨inv, h⟩
  rw [show processCard false (fun _ => none) "att" templateCardExample = .ok none from rfl] at h
  exact Option.noConfusion (Except.ok.inj h)

/-- C1 amended: every record flagged `template="true"` that the card loop
reaches is skipped with only a log line; the template-stub branch (tag
`Templates`, `-`-valued text assignments) is unreachable because its guard
repeats the very condition that caused the skip. -/
theorem C1_amended_template_skipped (tg : Bool) (groups : String → Option String)
    (dir : String) (card : XCard) (h : card.template = some "true") :
    processCard tg groups dir card = .ok none := by
  simp [processCard, h]

theorem C1_amended_witness :
    templateCardExample.template = some "true" ∧
    processCard true (fun _ => some "G") "dir" templateCardExample = .ok none :=
  ⟨rfl, C1_amended_template_skipped true (fun _ => some "G") "dir" templateCardExample rfl⟩

theorem pySub_true_eq (l : List Char) :
    pySubUnderscore l true =
      pySubUnderscore (l.dropWhile (fun d => !(allowedFileChar d))) false := by
  induction l with
  | nil => rfl
  | cons c t ih =>
    by_cases h : allowedFileChar c
    · simp [pySubUnderscore, h, List.dropWhile_cons]
    · simp [pySubUnderscore, h, List.dropWhile_cons, ih]

theorem pySub_false_eq_collapseRuns (l : List Char) :
    pySubUnderscore l false = collapseRuns l := by
  suffices h : ∀ n (l : List Char), l.length ≤ n → pySubUnderscore l false = collapseRuns l from
    h l.length l le_rfl
  intro n
  induction n with
  | zero =>
    intro l hl
    have h0 : l = [] := List.length_eq_zero.mp (Nat.le_zero.mp hl)
    subst h0
    simp [pySubUnderscore, collapseRuns]
  | succ n ih =>
    intro l hl
    cases l with
    | nil => simp [pySubUnderscore, collapseRuns]
    | cons c t =>
      by_cases h : allowedFileChar c
      · have ht : t.length ≤ n := by
          simp only [List.length_cons] at hl
          omega
        simp [pySubUnderscore, collapseRuns, h, ih t ht]
      · have hd : (t.dropWhile (fun d => !(allowedFileChar d))).length ≤ n := by
          have h1 := (List.dropWhile_sublist (l := t) (fun d => !(allowedFileChar d))).length_le
          simp only [List.length_cons] at hl
          omega
        simp [pySubUnderscore, collapseRuns, h, pySub_true_eq, ih _ hd]

theorem pySub_chars (l : List Char) (f : Bool) (c : Char) (hc : c ∈ pySubUnderscore l f) :
    allowedFileChar c = true := by
  induction l generalizing f with
  | nil => simp [pySubUnderscore] at hc
  | cons d t ih =>
    by_cases h : allowedFileChar d
    · simp only [pySubUnderscore, h, if_true, List.mem_cons] at hc
      rcases hc with rfl | hc
      · exact h
      · exact ih false hc
    · cases f with
      | true =>
        simp only [pySubUnderscore, h, if_false, Bool.false_eq_true, if_true] at hc
        exact ih true hc
      | false =>
        simp only [pySubUnderscore, h, if_false, Bool.false_eq_true, List.mem_cons] at hc
        rcases hc with rfl | hc
        · rfl
        · exact ih true hc

/-- C6 counterexample: two adjacent disallowed characters collapse to a
single underscore (`re.sub` replaces each maximal run, `[^\w.\-]+`), so the
claimed per-character replacement, which would give `a__b`, does not hold. -/
theorem C6_counterexample :
    safe_filename "a  b" = "a_b" ∧ ("a_b" : String) ≠ "a__b" :=
  ⟨rfl, by decide⟩

/-- C6 amended: sanitisation strips outer whitespace, replaces each maximal
run of characters outside `[A-Za-z0-9._-]` (ASCII fragment of the regex
class) with one underscore, truncates to 80 characters, and falls back to
`attachment` when empty; every output character is in the allowed class,
the output is nonempty and at most 80 characters; an explicitly provided
attachment filename is used as-is after this sanitisation, with no
extension inference. -/
theorem C6_amended_sanitize (s : String) (_hascii : ∀ c ∈ s.data, c.toNat < 128) :
    (safe_filename s).data =
      (if ((collapseRuns (pyStrip s.data)).take 80).isEmpty then "attachment".data
       else (collapseRuns (pyStrip s.data)).take 80) ∧
    (∀ c ∈ (safe_filename s).data, allowedFileChar c = true) ∧
    (safe_filename s).data.length ≤ 80 ∧
    (safe_filename s).data ≠ [] ∧
    (∀ (dir txt fn a : String) (auto : Bool) (pre : String) (idx : Nat), fn ≠ "" →
      process_attachment dir (some txt) (some fn) auto pre idx = .ok (some a) →
      a = escape_assignment_name (safe_filename fn) ++ "[file]=" ++
        (dir ++ "/" ++ safe_filename fn)) := by
  refine ⟨?_, ?_, ?_, ?_, ?_⟩
  · simp only [safe_filename, pySub_false_eq_collapseRuns]
    split_ifs <;> rfl
  · intro c hc
    simp only [safe_filename] at hc
    rw [apply_ite String.data] at hc
    split_ifs at hc with hemp
    · have hl : ("attachment" : String).data =
          ['a', 't', 't', 'a', 'c', 'h', 'm', 'e', 'n', 't'] := rfl
      rw [hl] at hc
      simp only [List.mem_cons, List.not_mem_nil, or_false] at hc
      rcases hc with rfl | rfl | rfl | rfl | rfl | rfl | rfl | rfl | rfl | rfl <;> rfl
    · exact pySub_chars _ _ c (List.take_subset _ _ hc)
  · simp only [safe_filename]
    rw [apply_ite String.data]
    split_ifs with hemp
    · decide
    · exact List.length_take_le 80 _
  · simp only [safe_filename]
    rw [apply_ite String.data]
    split_ifs with hemp
    · decide
    · simpa [List.isEmpty_iff] using hemp
  · intro dir txt fn a auto pre idx hne hok
    simp only [process_attachment, Option.getD, if_neg hne] at hok
    by_cases hblank : pyStripS txt = ""
    · rw [if_pos hblank] at hok
      exact absurd (Except.ok.inj hok) (by simp)
    · rw [if_neg hblank] at hok
      cases hdec : decode_base64_payload (pyStripS txt) with
      | error e =>
        rw [hdec] at hok
        exact Except.noConfusion hok
      | ok data =>
        rw [hdec] at hok
        exact (Option.some.inj (Except.ok.inj hok)).symm

theorem C6_witness :
    (∀ c ∈ ("a b.png" : String).data, c.toNat < 128) ∧
    (safe_filename "a b.png").data ≠ [] :=
  ⟨by decide, (C6_amended_sanitize "a b.png" (by decide)).2.2.2.1⟩

theorem a2bGo_strict_bad : ∀ (l : List Char) (st : A2b),
    (∃ c ∈ l, b64val c = none ∧ c ≠ '=') → a2bGo true l st = none := by
  intro l
  induction l with
  | nil =>
    intro st hbad
    simp at hbad
  | cons c rest ih =>
    intro st hbad
    rcases hbad with ⟨d, hd, hdval, hdne⟩
    by_cases hc : c = '='
    · subst hc
      have hdrest : d ∈ rest := by
        rcases List.mem_cons.mp hd with rfl | h
        · exact absurd rfl hdne
        · exact h
      have hrest : rest ≠ [] := List.ne_nil_of_mem hdrest
      simp only [a2bGo, reduceIte]
      split_ifs with h2 h4 hre
      · rfl
      · exfalso
        apply hrest
        simp only [Bool.true_and, Bool.not_eq_true'] at hre
        cases hb : rest.isEmpty with
        | false => exact absurd hb hre
        | true => exact List.isEmpty_iff.mp hb
      · exact ih _ ⟨d, hdrest, hdval, hdne⟩
      · exact ih _ ⟨d, hdrest, hdval, hdne⟩
    · simp only [a2bGo, if_neg hc]
      cases hv : b64val c with
      | none => simp [hv]
      | some v =>
        have hdrest : d ∈ rest := by
          rcases List.mem_cons.mp hd with rfl | h
          · rw [hv] at hdval
            exact absurd hdval (by simp)
          · exact h
        simp only [hv]
        by_cases hps : st.padStart
        · simp [hps]
        · simp only [Bool.not_eq_true] at hps
          simp [hps, ih _ ⟨d, hdrest, hdval, hdne⟩]

theorem a2b_strict_bad (l : List Char)
    (hbad : ∃ c ∈ l, b64val c = none ∧ c ≠ '=') :
    a2b true l = none := by
  simp only [a2b]
  split_ifs with h1
  · rfl
  · exact a2bGo_strict_bad l _ hbad

theorem a2bGo_false_filter : ∀ (l : List Char) (st : A2b),
    a2bGo false l st = a2bGo false (l.filter keepB64) st := by
  intro l
  induction l with
  | nil => intro st; rfl
  | cons c rest ih =>
    intro st
    by_cases hc : c = '='
    · subst hc
      rw [List.filter_cons_of_pos (by decide)]
      simp only [a2bGo, reduceIte, Bool.false_and, Bool.false_eq_true, if_false]
      split_ifs with h2 h4
      · rfl
      · exact ih _
      · exact ih _
    · cases hv : b64val c with
      | none =>
        have hk : keepB64 c = false := by simp [keepB64, hv, hc]
        rw [List.filter_cons_of_neg (by simp [hk])]
        simp only [a2bGo, if_neg hc, hv]
        exact ih _
      | some v =>
        have hk : keepB64 c = true := by simp [keepB64, hv]
        rw [List.filter_cons_of_pos (by simp [hk])]
        simp only [a2bGo, if_neg hc, hv, Bool.false_and, Bool.false_eq_true, if_false]
        exact ih _

/-- C4 counterexample: the input `ab*cd` contains a character outside the
base64 alphabet, yet the decoder returns bytes instead of raising: the
lenient fallback (`validate=False`) discards the `*` and decodes `abcd`. -/
theorem C4_counterexample :
    ('*' ∈ compact_payload "ab*cd" ∧ b64val '*' = none ∧ '*' ≠ '=') ∧
    decode_base64_payload "ab*cd" = .ok [105, 183, 29] :=
  ⟨by decide, rfl⟩

/-- C4 amended: on input containing a non-alphabet, non-padding character
after whitespace stripping, the strict attempt fails, but the fallback
attempt does not reject such characters: it discards every character
outside the alphabet-plus-padding set and decodes what remains, so
genuinely invalid input can decode to bytes; an error is raised only when
the fallback also fails on the remaining characters. -/
theorem C4_amended_fallback_discards (s : String)
    (hascii : ∀ c ∈ s.data, c.toNat < 128)
    (hbad : ∃ c ∈ compact_payload s, b64val c = none ∧ c ≠ '=') :
    a2b true (compact_payload s) = none ∧
    decode_base64_payload s =
      (match a2b false (compact_payload s ++ ['=', '=', '=']) with
       | some bs => Except.ok bs
       | none => Except.error "binascii.Error: invalid base64") ∧
    a2b false (compact_payload s ++ ['=', '=', '=']) =
      a2b false ((compact_payload s).filter keepB64 ++ ['=', '=', '=']) := by
  have hstrict : a2b true (compact_payload s) = none := a2b_strict_bad _ hbad
  have hany : (compact_payload s).any (fun c => 128 ≤ c.toNat) = false := by
    apply List.any_eq_false.mpr
    intro c hc
    have := hascii c (List.mem_of_mem_filter hc)
    simp only [decide_eq_true_eq]
    omega
  refine ⟨hstrict, ?_, ?_⟩
  · simp only [decode_base64_payload, hany, Bool.false_eq_true, if_false, hstrict]
  · have ha2b : ∀ l : List Char, a2b false l = a2bGo false l ⟨0, 0, 0, false, []⟩ := by
      intro l
      simp [a2b]
    have hfa : (compact_payload s ++ ['=', '=', '=']).filter keepB64 =
        (compact_payload s).filter keepB64 ++ ['=', '=', '='] := by
      rw [List.filter_append]
      rfl
    rw [ha2b, ha2b, a2bGo_false_filter (compact_payload s ++ ['=', '=', '=']), hfa]

theorem C4_witness :
    ((∀ c ∈ ("ab*cd" : String).data, c.toNat < 128) ∧
     (∃ c ∈ compact_payload "ab*cd", b64val c = none ∧ c ≠ '=')) ∧
    a2b true (compact_payload "ab*cd") = none :=
  ⟨⟨by decide, ⟨'*', by decide, by decide, by decide⟩⟩,
   (C4_amended_fallback_discards "ab*cd" (by decide)
      ⟨'*', by decide, by decide, by decide⟩).1⟩

theorem b64val_pad : b64val '=' = none := by decide

theorem b64val_char_facts (c : Char) (h : (b64val c).isSome = true) :
    isPySpace c = false ∧ c.toNat < 128 := by
  unfold b64val at h
  split_ifs at h with h1 h2 h3 h4 h5
  · exact ⟨by simp [isPySpace]; omega, by omega⟩
  · exact ⟨by simp [isPySpace]; omega, by omega⟩
  · exact ⟨by simp [isPySpace]; omega, by omega⟩
  · subst h4
    exact ⟨by decide, by decide⟩
  · subst h5
    exact ⟨by decide, by decide⟩
  · simp at h

theorem dataStep_padStart (st : A2b) (v : Nat) :
    (dataStep st v).padStart = st.padStart := by
  obtain ⟨q, lf, pd, ps, ot⟩ := st
  rcases q with _ | _ | _ | q <;> rfl

theorem dataStep_pads (st : A2b) (v : Nat) : (dataStep st v).pads = 0 := by
  obtain ⟨q, lf, pd, ps, ot⟩ := st
  rcases q with _ | _ | _ | q <;> rfl

theorem dataStep_quad (st : A2b) (v : Nat) (h : st.quad < 4) :
    (dataStep st v).quad = (st.quad + 1) % 4 := by
  obtain ⟨q, lf, pd, ps, ot⟩ := st
  simp only at h
  interval_cases q <;> simp [dataStep]

theorem dataFold_padStart (s : List Char) (st : A2b) :
    (dataFold s st).padStart = st.padStart := by
  induction s generalizing st with
  | nil => rfl
  | cons c t ih =>
    simp only [dataFold, List.foldl_cons] at *
    rw [ih, dataStep_padStart]

theorem dataFold_pads (s : List Char) (st : A2b) (h : st.pads = 0) :
    (dataFold s st).pads = 0 := by
  induction s generalizing st with
  | nil => exact h
  | cons c t ih =>
    simp only [dataFold, List.foldl_cons] at *
    exact ih _ (dataStep_pads _ _)

theorem dataFold_quad (s : List Char) (st : A2b) (h : st.quad < 4) :
    (dataFold s st).quad = (st.quad + s.length) % 4 ∧ (dataFold s st).quad < 4 := by
  induction s generalizing st with
  | nil =>
    constructor
    · simp only [dataFold, List.foldl_nil, List.length_nil]
      omega
    · simpa [dataFold] using h
  | cons c t ih =>
    simp only [dataFold, List.foldl_cons, List.length_cons] at *
    have h1 : (dataStep st ((b64val c).getD 0)).quad = (st.quad + 1) % 4 :=
      dataStep_quad _ _ h
    have h2 : (dataStep st ((b64val c).getD 0)).quad < 4 := by
      rw [h1]
      omega
    obtain ⟨ha, hb⟩ := ih _ h2
    refine ⟨?_, hb⟩
    rw [ha, h1]
    omega

theorem a2bGo_data_append (b : Bool) : ∀ (s t : List Char) (st : A2b),
    (∀ c ∈ s, (b64val c).isSome = true) → st.padStart = false →
    a2bGo b (s ++ t) st = a2bGo b t (dataFold s st) := by
  intro s
  induction s with
  | nil => intro t st _ _; rfl
  | cons c s2 ih =>
    intro t st hall hps
    have hc : (b64val c).isSome = true := hall c (List.mem_cons_self c s2)
    obtain ⟨v, hv⟩ := Option.isSome_iff_exists.mp hc
    have hce : c ≠ '=' := by
      intro hh
      subst hh
      rw [b64val_pad] at hv
      exact Option.noConfusion hv
    rw [List.cons_append]
    simp only [a2bGo, if_neg hce, hv, hps, Bool.and_false, Bool.false_eq_true, if_false]
    rw [ih t _ (fun e he => hall e (List.mem_cons_of_mem c he))
      (by rw [dataStep_padStart]; exact hps)]
    simp only [dataFold, List.foldl_cons, hv, Option.getD_some]

theorem a2bGo_pad_done (b : Bool) (rest : List Char) (st : A2b) (h2 : 2 ≤ st.quad)
    (h4 : 4 ≤ st.quad + (st.pads + 1)) (hb : b = false ∨ rest = []) :
    a2bGo b ('=' :: rest) st = some st.out.reverse := by
  simp only [a2bGo, reduceIte]
  rw [if_pos h2, if_pos h4]
  rcases hb with rfl | rfl <;> simp

theorem a2bGo_pad_cont (b : Bool) (rest : List Char) (st : A2b) (h2 : 2 ≤ st.quad)
    (hlt : st.quad + (st.pads + 1) < 4) :
    a2bGo b ('=' :: rest) st =
      a2bGo b rest { st with padStart := true, pads := st.pads + 1 } := by
  simp only [a2bGo, reduceIte]
  rw [if_pos h2, if_neg (by omega)]

theorem a2b_false_eq (l : List Char) :
    a2b false l = a2bGo false l ⟨0, 0, 0, false, []⟩ := by
  simp [a2b]

theorem a2b_strict_data_head (d tail : List Char)
    (hd : ∀ c ∈ d, (b64val c).isSome = true) (hne : d ≠ []) :
    a2b true (d ++ tail) = a2bGo true (d ++ tail) ⟨0, 0, 0, false, []⟩ := by
  cases d with
  | nil => exact absurd rfl hne
  | cons c d2 =>
    have hc : (b64val c).isSome = true := hd c (List.mem_cons_self c d2)
    have hce : c ≠ '=' := by
      intro hh
      subst hh
      rw [b64val_pad] at hc
      exact Bool.noConfusion hc
    simp [a2b, hce]

theorem padTail2 (b : Bool) (st : A2b) (h : st.quad = 2) (hpd : st.pads = 0) :
    a2bGo b ['=', '='] st = some st.out.reverse := by
  rw [a2bGo_pad_cont b _ st (by omega) (by omega)]
  rw [a2bGo_pad_done b _ _ (by show 2 ≤ st.quad; omega)
    (by show 4 ≤ st.quad + (st.pads + 1 + 1); omega) (Or.inr rfl)]

theorem padTail2_false (st : A2b) (h : st.quad = 2) (hpd : st.pads = 0) (extra : List Char) :
    a2bGo false ('=' :: '=' :: extra) st = some st.out.reverse := by
  rw [a2bGo_pad_cont false _ st (by omega) (by omega)]
  rw [a2bGo_pad_done false _ _ (by show 2 ≤ st.quad; omega)
    (by show 4 ≤ st.quad + (st.pads + 1 + 1); omega) (Or.inl rfl)]

theorem padTail3 (b : Bool) (st : A2b) (h : st.quad = 3) (hpd : st.pads = 0) :
    a2bGo b ['='] st = some st.out.reverse :=
  a2bGo_pad_done b _ _ (by omega) (by omega) (Or.inr rfl)

theorem padTail3_false (st : A2b) (h : st.quad = 3) (hpd : st.pads = 0) (extra : List Char) :
    a2bGo false ('=' :: extra) st = some st.out.reverse :=
  a2bGo_pad_done false _ _ (by omega) (by omega) (Or.inl rfl)

theorem padTail_fail0 (b : Bool) (st : A2b) (h : st.quad ≠ 0) :
    a2bGo b [] st = none := by
  simp only [a2bGo]
  rw [if_neg h]

theorem padTail_fail2 (b : Bool) (st : A2b) (h : st.quad = 2) (hpd : st.pads = 0) :
    a2bGo b ['='] st = none := by
  rw [a2bGo_pad_cont b _ st (by omega) (by omega)]
  exact padTail_fail0 b _ (by show st.quad ≠ 0; omega)

/-- C3: a base64 payload whose whitespace-stripped form is alphabet data
missing its padding (data length 2 or 3 mod 4, with at most the partial
padding `j ≤ 1` present) fails the strict decode, succeeds through the
single fallback that appends three `=`, and yields exactly the bytes of
the correctly padded string; and the decoder reports an error only when
both the strict and the fallback attempt fail. -/
theorem C3_underpadded_fallback (d : List Char) (j : Nat)
    (hdata : ∀ c ∈ d, (b64val c).isSome = true)
    (hmod : (d.length % 4 = 2 ∧ j ≤ 1) ∨ (d.length % 4 = 3 ∧ j = 0)) :
    a2b true (d ++ List.replicate j '=') = none ∧
    (∃ bs,
      a2b false ((d ++ List.replicate j '=') ++ ['=', '=', '=']) = some bs ∧
      a2b true (d ++ List.replicate (4 - d.length % 4) '=') = some bs ∧
      (∀ t : String, compact_payload t = d ++ List.replicate j '=' →
        decode_base64_payload t = .ok bs)) ∧
    (∀ t : String, (∀ c ∈ t.data, c.toNat < 128) →
      ∀ e, decode_base64_payload t = .error e →
        a2b true (compact_payload t) = none ∧
        a2b false (compact_payload t ++ ['=', '=', '=']) = none) := by
  have hdne : d ≠ [] := by
    intro hh
    subst hh
    rcases hmod with ⟨h, _⟩ | ⟨h, _⟩ <;> simp at h
  have hquad : (dataFold d (⟨0, 0, 0, false, []⟩ : A2b)).quad = d.length % 4 := by
    obtain ⟨h1, _⟩ := dataFold_quad d ⟨0, 0, 0, false, []⟩ (by decide)
    simpa using h1
  have hpd1 : (dataFold d (⟨0, 0, 0, false, []⟩ : A2b)).pads = 0 :=
    dataFold_pads _ _ rfl
  have hA : a2b true (d ++ List.replicate j '=') = none := by
    rw [a2b_strict_data_head d _ hdata hdne,
      a2bGo_data_append true d _ _ hdata rfl]
    rcases hmod with ⟨h2, hj⟩ | ⟨h3, hj⟩
    · interval_cases j
      · simp only [List.replicate]
        exact padTail_fail0 true _ (by omega)
      · simp only [List.replicate]
        exact padTail_fail2 true _ (by omega) hpd1
    · subst hj
      simp only [List.replicate]
      exact padTail_fail0 true _ (by omega)
  have hB : a2b false ((d ++ List.replicate j '=') ++ ['=', '=', '=']) =
      some (dataFold d (⟨0, 0, 0, false, []⟩ : A2b)).out.reverse := by
    rw [a2b_false_eq, List.append_assoc,
      a2bGo_data_append false d _ _ hdata rfl]
    rcases hmod with ⟨h2, hj⟩ | ⟨h3, hj⟩
    · interval_cases j
      · simp only [List.replicate, List.nil_append]
        exact padTail2_false _ (by omega) hpd1 ['=']
      · simp only [List.replicate, List.cons_append, List.nil_append]
        exact padTail2_false _ (by omega) hpd1 ['=', '=']
    · subst hj
      simp only [List.replicate, List.nil_append]
      exact padTail3_false _ (by omega) hpd1 ['=', '=']
  have hC : a2b true (d ++ List.replicate (4 - d.length % 4) '=') =
      some (dataFold d (⟨0, 0, 0, false, []⟩ : A2b)).out.reverse := by
    rw [a2b_strict_data_head d _ hdata hdne,
      a2bGo_data_append true d _ _ hdata rfl]
    rcases hmod with ⟨h2, hj⟩ | ⟨h3, hj⟩
    · rw [h2]
      norm_num [List.replicate]
      exact padTail2 true _ (by omega) hpd1
    · rw [h3]
      norm_num [List.replicate]
      exact padTail3 true _ (by omega) hpd1
  have hD : ∀ t : String, compact_payload t = d ++ List.replicate j '=' →
      decode_base64_payload t =
        .ok (dataFold d (⟨0, 0, 0, false, []⟩ : A2b)).out.reverse := by
    intro t hcomp
    have hasc : (compact_payload t).any (fun c => 128 ≤ c.toNat) = false := by
      apply List.any_eq_false.mpr
      intro c hc
      rw [hcomp] at hc
      rcases List.mem_append.mp hc with hcd | hcp
      · have hlt := (b64val_char_facts c (hdata c hcd)).2
        simp only [decide_eq_true_eq]
        omega
      · have hce := List.eq_of_mem_replicate hcp
        subst hce
        decide
    simp only [decode_base64_payload, hasc, Bool.false_eq_true, if_false]
    rw [hcomp, hA, hB]
  refine ⟨hA, ⟨_, hB, hC, hD⟩, ?_⟩
  intro t ht e he
  have hasc : (compact_payload t).any (fun c => 128 ≤ c.toNat) = false := by
    apply List.any_eq_false.mpr
    intro c hc
    simp only [compact_payload] at hc
    have := ht c (List.mem_of_mem_filter hc)
    simp only [decide_eq_true_eq]
    omega
  simp only [decode_base64_payload, hasc, Bool.false_eq_true, if_false] at he
  cases h1 : a2b true (compact_payload t) with
  | some bs =>
    rw [h1] at he
    exact Except.noConfusion he
  | none =>
    rw [h1] at he
    cases hh2 : a2b false (compact_payload t ++ ['=', '=', '=']) with
    | some bs =>
      rw [hh2] at he
      exact Except.noConfusion he
    | none => exact ⟨rfl, rfl⟩

theorem C3_witness :
    ((∀ c ∈ ("QQ" : String).data, (b64val c).isSome = true) ∧
      (("QQ" : String).data.length % 4 = 2 ∧ 0 ≤ 1)) ∧
    a2b true (("QQ" : String).data ++ List.replicate 0 '=') = none :=
  ⟨⟨by decide, by decide, by decide⟩,
   (C3_underpadded_fallback ("QQ" : String).data 0 (by decide)
      (Or.inl ⟨by decide, by decide⟩)).1⟩

/-- C10: the login, password and notes gates test only emptiness, so a
whitespace-only (nonempty) text still yields a `username=`, `password=` or
`notesPlain=` assignment carrying that whitespace value in the produced
invocation; a custom field whose value is whitespace-only is skipped by the
blank check and yields no assignment. -/
theorem C10_emptiness_gates (tg : Bool) (groups : String → Option String) (dir : String)
    (card : XCard) (inv : Invocation)
    (hnt : card.template ≠ some "true")
    (hok : processCard tg groups dir card = .ok (some inv)) :
    (∀ i f w, findTypedIdx "login" card.fields.enum = some (i, f) → f.text = some w →
      w ≠ "" → ("username=" ++ w) ∈ inv.assignments) ∧
    (∀ i f w, findTypedIdx "password" card.fields.enum = some (i, f) → f.text = some w →
      w ≠ "" → ("password=" ++ w) ∈ inv.assignments) ∧
    (∀ w, card.notes = some (some w) → w ≠ "" → ("notesPlain=" ++ w) ∈ inv.assignments) ∧
    (∀ f : XField, ∀ w, f.text = some w → pyStripS w = "" →
      custom_assignment_for f = none) := by
  simp only [processCard] at hok
  rw [if_neg hnt] at hok
  cases himg : processImages dir (card_title card) card.images 1 with
  | error e =>
    rw [himg] at hok
    exact Except.noConfusion hok
  | ok imgA =>
    rw [himg] at hok
    cases hfl : processFiles dir card.files 1 with
    | error e =>
      rw [hfl] at hok
      exact Except.noConfusion hok
    | ok fileA =>
      rw [hfl] at hok
      have hinv : inv = { title := card_title card, url := url_value card,
                          tags := card_tags tg groups card,
                          assignments := base_assignments card ++ imgA ++ fileA } :=
        (Option.some.inj (Except.ok.inj hok)).symm
      have hassign : inv.assignments = base_assignments card ++ imgA ++ fileA := by
        rw [hinv]
      refine ⟨?_, ?_, ?_, ?_⟩
      · intro i f w hfind htext hw
        have hlog : login_assignments card = ["username=" ++ w] := by
          simp [login_assignments, hfind, truthyOpt, htext, hw]
        rw [hassign]
        simp [base_assignments, hlog]
      · intro i f w hfind htext hw
        have hpass : password_assignments card = ["password=" ++ w] := by
          simp [password_assignments, hfind, truthyOpt, htext, hw]
        rw [hassign]
        simp [base_assignments, hpass]
      · intro w hnotes hw
        have hns : notes_assignments card = ["notesPlain=" ++ w] := by
          simp [notes_assignments, hnotes, truthyOpt, hw]
        rw [hassign]
        simp [base_assignments, hns]
      · intro f w htext hws
        simp [custom_assignment_for, htext, is_blank, hws]

theorem C10_witness :
    (wsCardExample.template ≠ some "true" ∧
      processCard false (fun _ => none) "d" wsCardExample =
        .ok (some { title := "W", url := none, tags := [],
                    assignments := ["username= ", "notesPlain= "] })) ∧
    ("username=" ++ " ") ∈
      ({ title := "W", url := none, tags := [],
         assignments := ["username= ", "notesPlain= "] } : Invocation).assignments :=
  ⟨⟨by decide, rfl⟩,
   (C10_emptiness_gates false (fun _ => none) "d" wsCardExample
      { title := "W", url := none, tags := [],
        assignments := ["username= ", "notesPlain= "] } (by decide) rfl).1
     0 { name := some "Login", ftype := some "login", text := some " " } " "
     (by decide) rfl (by decide)⟩

/-- Differential checks of the decoder model against the observed CPython
`binascii.a2b_base64` behaviour (strict and lenient) on probe inputs. -/
theorem a2b_reference_checks :
    a2b true "QQ==".data = some [65] ∧
    a2b true "QQ".data = none ∧
    a2b true "QQ===".data = none ∧
    a2b false "QQ===".data = some [65] ∧
    a2b true "QQQQ=".data = some [65, 4, 16] ∧
    a2b true "=A==".data = none ∧
    a2b false "=A==".data = none ∧
    a2b false "====".data = some [] ∧
    a2b true "QQ==A".data = none ∧
    a2b false "QQ==A".data = some [65] ∧
    a2b true "QQQQ=Q==".data = none ∧
    a2b false "ab*cd===".data = some [105, 183, 29] := by
  decide

/-- Differential checks of the full payload decoder, including whitespace
joining and the padding fallback. -/
theorem decode_reference_checks :
    decode_base64_payload "QQ" = .ok [65] ∧
    decode_base64_payload "Q Q\n=\t=" = .ok [65] ∧
    decode_base64_payload "ab*cd" = .ok [105, 183, 29] :=
  ⟨rfl, rfl, rfl⟩

/-- The full-card scenario of the spec: a login/password/website card with
a PIN custom field and one PNG image produces the expected invocation. -/
theorem processCard_bank_scenario :
    processCard false (fun _ => none) "att"
      { title := some "Bank", template := none,
        fields := [⟨some "Login", some "login", some "alice"⟩,
                   ⟨some "Password", some "password", some "s3cr3t"⟩,
                   ⟨some "Website", some "website", some "https://bank.example"⟩,
                   ⟨some "PIN", none, some "1234"⟩],
        notes := none, label_id := none,
        images := [some "iVBORw0KGgo="], files := [] } =
    .ok (some { title := "Bank", url := some "https://bank.example", tags := [],
                assignments := ["username=alice", "password=s3cr3t", "S:PIN[password]=1234",
                  "Bank_1\\.png[file]=att/Bank_1.png"] }) := rfl

end SIC
